import Mathlib

/-!
Verification development for the Endurely training-program generator.

The definitions below are a shallow embedding of the Python source:
* `app/utils.py` — `assign_weekdays_to_workouts` (day normalizer);
* `app/agent_azure_ai.py` — `_create_chat_completion` (compatibility-adaptive
  completion caller), `_extract_json_object_text` (response extractor),
  `generate_program` / `generate_single_week` response processing, and
  `_generate_program_progressive` (periodization / progressive assembly);
* `app/models.py` — the `lowercase_sport` and `lowercase_enums` validators.

Python strings are modelled as `List Char` (all inputs of interest are ASCII),
dictionaries with a fixed set of relevant keys as structures carrying a
`payload` field for the remaining keys, and fallible operations as `Option` /
`Except`.
-/

namespace Endurely

/-! ### Python string primitives -/

/-- The character that opens a JSON object. -/
def lbrace : Char := Char.ofNat 123

/-- The character that closes a JSON object. -/
def rbrace : Char := Char.ofNat 125

/-- The whitespace characters removed by Python's `str.strip()` (ASCII part). -/
def isPySpace (ch : Char) : Bool :=
  ch == ' ' || ch == '\t' || ch == '\n' || ch == '\r' ||
  ch == Char.ofNat 11 || ch == Char.ofNat 12

/-- Python `s.strip()` (ASCII whitespace). -/
def pyStrip (s : List Char) : List Char :=
  ((s.dropWhile isPySpace).reverse.dropWhile isPySpace).reverse

/-- Lower-case an ASCII character, as Python `str.lower()` does on ASCII text. -/
def asciiLower (ch : Char) : Char :=
  if 65 ≤ ch.toNat && ch.toNat ≤ 90 then Char.ofNat (ch.toNat + 32) else ch

/-- Python `s.lower()` (ASCII). -/
def pyLower (s : List Char) : List Char := s.map asciiLower

/-- Index of the first occurrence of `pat` in `s`, like Python `s.find(pat)`
(`none` plays the role of `-1`). -/
def findSub (pat : List Char) : List Char → Option Nat
  | [] => if pat.isEmpty then some 0 else none
  | x :: xs =>
    if pat.isPrefixOf (x :: xs) then some 0
    else (findSub pat xs).map (· + 1)

/-- Python `pat in s` (substring containment). -/
def containsSub (pat s : List Char) : Bool := (findSub pat s).isSome

/-- The part of `s` before the first occurrence of `pat` (all of `s` if `pat`
does not occur): Python `s.split(pat)[0]`, which is total. -/
def beforeFirst (pat s : List Char) : List Char :=
  match findSub pat s with
  | none => s
  | some i => s.take i

/-- The part of `s` after the first occurrence of `pat`: Python
`s.split(pat, 1)[1]`, which raises `IndexError` when `pat` is absent —
modelled by `none`. -/
def afterFirst? (pat s : List Char) : Option (List Char) :=
  (findSub pat s).map (fun i => s.drop (i + pat.length))

/-- Python `s.split(pat)[1]`: the segment between the first occurrence of
`pat` and the next one (or the end).  `none` models the `IndexError` raised
when `pat` is absent. -/
def splitIdx1? (pat s : List Char) : Option (List Char) :=
  (afterFirst? pat s).map (beforeFirst pat)

/-- Fuel-driven core of Python `s.replace(pat, repl)`; called with
`fuel = s.length`, which always suffices because every step consumes at least
one character of `s`. -/
def pyReplaceF (pat repl : List Char) : Nat → List Char → List Char
  | _, [] => []
  | 0, s => s
  | fuel + 1, x :: xs =>
    if pat.isPrefixOf (x :: xs) then
      repl ++ pyReplaceF pat repl fuel ((x :: xs).drop pat.length)
    else
      x :: pyReplaceF pat repl fuel xs

/-- Python `s.replace(pat, repl)` for a non-empty `pat` (the only way the
source uses it). -/
def pyReplace (pat repl s : List Char) : List Char :=
  pyReplaceF pat repl s.length s

/-! ### Response extractor (`_extract_json_object_text`, agent_azure_ai.py) -/

/-- The fenced-code delimiter recognized by the extractor. -/
def fenceL : List Char := ("```").toList

/-- The JSON-tagged fenced-code delimiter recognized by the extractor. -/
def jsonFenceL : List Char := ("```json").toList

/-- The final brace-slicing step of the extractor: locate the first opening
brace and the last closing brace and slice to that inclusive range when the
latter is strictly to the right of the former (Python
`content[first_brace : last_brace + 1]` guarded by
`first != -1 and last != -1 and last > first`). -/
def braceSlice (c : List Char) : List Char :=
  match findSub [lbrace] c, (findSub [rbrace] c.reverse).map (c.length - 1 - ·) with
  | some i, some j => if i < j then (c.take (j + 1)).drop i else c
  | _, _ => c

/-- `_extract_json_object_text`, embedded over `List Char`.  The `Option`
result models the `IndexError` that the Python `split(...)[1]` expressions
would raise were their guards wrong; `extract_total` below proves the result
is always `some`. -/
def extract_json_object_text (s : List Char) : Option (List Char) :=
  let c := pyStrip s
  let c? : Option (List Char) :=
    if containsSub jsonFenceL c then
      (splitIdx1? jsonFenceL c).map (fun t => pyStrip (beforeFirst fenceL t))
    else if containsSub fenceL c then
      (afterFirst? fenceL c).map (fun t => pyStrip (beforeFirst fenceL t))
    else some c
  c?.map braceSlice

/-- Total wrapper for the extractor (the `none` case is unreachable, see the
totality theorem for the extractor). -/
def extract_json_object_textD (s : List Char) : List Char :=
  (extract_json_object_text s).getD s

/-! ### Day normalizer data model (`app/utils.py`)

A parsed workout mapping is modelled by its two keys the normalizer reads or
writes — `"day"` (`none` models an absent key) and `"is_rest_day"` (absent
defaults to `False`) — plus an opaque `payload` for every other key.  Weeks
and the program mapping are modelled the same way. -/

structure Workout (α : Type) where
  day : Option String
  is_rest_day : Bool
  payload : α
deriving DecidableEq, Repr

structure WeekData (α β : Type) where
  workouts : List (Workout α)
  payload : β
deriving DecidableEq, Repr

structure ProgramData (α β γ : Type) where
  weeks : List (WeekData α β)
  payload : γ
deriving DecidableEq, Repr

/-- The `weekdays` list of `assign_weekdays_to_workouts` (`Weekday` enum
values, Monday through Sunday). -/
def weekday_names : List String :=
  ["Monday", "Tuesday", "Wednesday", "Thursday", "Friday", "Saturday", "Sunday"]

/-- `weekdays[i].value`; only evaluated under the source's `i < 7` guards. -/
def weekdayStr (i : Nat) : String := weekday_names.getD i ""

/-- Mutation performed on the `aIdx`-th active (non-rest) workout of a week:
the loop variable `day_index` equals `base + aIdx` there and the day is
written only while `day_index < len(weekdays)`. -/
def stepActive {α : Type} (base aIdx : Nat) (w : Workout α) : Workout α :=
  if base + aIdx < 7 then { w with day := some (weekdayStr (base + aIdx)) } else w

/-- Mutation performed on the `rIdx`-th rest workout of a week: the first rest
workout unconditionally receives Monday; later rest workouts receive the
weekdays following the active ones (`day_index` having reached
`min (base + numActives) 7` after the active loop), while days remain. -/
def stepRest {α : Type} (base numActives rIdx : Nat) (w : Workout α) : Workout α :=
  if rIdx = 0 then { w with day := some (weekdayStr 0) }
  else if min (base + numActives) 7 + (rIdx - 1) < 7 then
    { w with day := some (weekdayStr (min (base + numActives) 7 + (rIdx - 1))) }
  else w

/-- Pure rendering of the in-place day assignment of one week: walk the
workouts in their original order, counting how many active (`aIdx`) and rest
(`rIdx`) workouts were already seen, and rewrite each workout exactly as the
three Python loops do through the `rest_workouts` / `active_workouts`
partitions (which alias the same dictionaries). -/
def assignDaysGo {α : Type} (base numActives : Nat) :
    Nat → Nat → List (Workout α) → List (Workout α)
  | _, _, [] => []
  | aIdx, rIdx, w :: ws =>
    if w.is_rest_day then
      stepRest base numActives rIdx w :: assignDaysGo base numActives aIdx (rIdx + 1) ws
    else
      stepActive base aIdx w :: assignDaysGo base numActives (aIdx + 1) rIdx ws

/-- Per-week body of `assign_weekdays_to_workouts`: skip empty weeks, then
touch the week only when at least one workout is missing the `"day"` key
(`missing_days`); in that case assign days to all workouts. -/
def assign_week {α β : Type} (wk : WeekData α β) : WeekData α β :=
  let ws := wk.workouts
  if ws.isEmpty then wk
  else if ws.any (fun w => w.day.isNone) then
    let base := if ws.any (fun w => w.is_rest_day) then 1 else 0
    let numActives := (ws.filter (fun w => !w.is_rest_day)).length
    { wk with workouts := assignDaysGo base numActives 0 0 ws }
  else wk

/-- `assign_weekdays_to_workouts` (utils.py): process each week of the
program mapping and return the same structure. -/
def assign_weekdays_to_workouts {α β γ : Type} (p : ProgramData α β γ) :
    ProgramData α β γ :=
  { p with weeks := p.weeks.map assign_week }

/-- Erase the day field; used to state that the normalizer only annotates
workouts and never reorders them or changes other fields. -/
def eraseDay {α : Type} (w : Workout α) : Workout α := { w with day := none }

/-! ### Schema validators (`app/models.py`) -/

/-- `Workout.lowercase_sport` (models.py), the `mode='before'` validator on
the `sport` field, for string inputs. -/
def lowercase_sport (v : List Char) : List Char :=
  let v := pyStrip (pyLower v)
  if v == ("rest").toList then ("swim").toList
  else if containsSub ("bike").toList v && containsSub ("run").toList v then
    ("bike").toList
  else if v == ("swim").toList || v == ("bike").toList || v == ("run").toList then v
  else ("run").toList

/-- `TrainingProgram.lowercase_enums` (models.py), the `mode='before'`
validator on the `goal` and `fitness_level` fields, for string inputs. -/
def lowercase_enums (v : List Char) : List Char :=
  let v := pyStrip (pyReplace (" triathlon").toList [] (pyLower v))
  if v == ("70.3").toList || v == ("half-ironman").toList ||
      v == ("half ironman").toList then
    ("half_ironman").toList
  else if v == ("140.6").toList || v == ("full-ironman").toList ||
      v == ("full ironman").toList || v == ("ironman").toList then
    ("full_ironman").toList
  else v

/-- The canonical `RaceDistance` enum values (models.py). -/
def canonical_goal_values : List (List Char) :=
  (["sprint", "olympic", "half_ironman", "full_ironman", "5k", "10k",
    "half_marathon", "marathon", "ultra_50k", "ultra_100k", "century",
    "gran_fondo", "double_century", "duathlon_sprint", "duathlon_standard",
    "duathlon_long", "aquathlon_sprint", "aquathlon_standard"]).map String.toList

/-- The canonical `FitnessLevel` enum values (models.py). -/
def canonical_fitness_values : List (List Char) :=
  (["beginner", "intermediate", "advanced"]).map String.toList

/-! ### Compatibility-adaptive completion caller (`_create_chat_completion`)

One outbound request is modelled by the parameters the Python code varies:
the message list, the optional sampling temperature, whether JSON mode
(`response_format`) is requested, which output-length parameter name carries
the budget (`max_completion_tokens` when `usesMaxCompletionTokens`, legacy
`max_tokens` otherwise) and the budget itself.  The provider is an abstract
`client` indexed by the ordinal of the network call, so a simulated provider
can answer each attempt differently; an `Except` error is the provider
exception's message text. -/

structure ChatRequest where
  messages : List (String × String)
  temperature : Option Int
  responseFormatJson : Bool
  usesMaxCompletionTokens : Bool
  maxOutputTokens : Nat
deriving DecidableEq, Repr

/-- Provider error-message fragments matched by the fallback ladder. -/
def unsupportedParamMsg : List Char := ("Unsupported parameter").toList

/-- Provider error-message fragment for bad parameter values. -/
def unsupportedValueMsg : List Char := ("Unsupported value").toList

/-- Provider error-message fragment of the older rejection wording. -/
def unrecognizedArgMsg : List Char := ("Unrecognized request argument").toList

/-- Error-message fragment naming the temperature parameter. -/
def temperatureMsg : List Char := ("temperature").toList

/-- Error-message fragment naming the JSON-mode parameter. -/
def responseFormatMsg : List Char := ("response_format").toList

/-- Error-message fragment naming the new-style output-length parameter. -/
def maxCompletionTokensMsg : List Char := ("max_completion_tokens").toList

/-- Error-message fragment naming the legacy output-length parameter. -/
def maxTokensMsg : List Char := ("max_tokens").toList

/-- The tail of `_create_chat_completion`'s `except` block, reached after the
temperature fallback (if any) has updated `kwargs` and the error message `m`:
the JSON-mode retry, then the two output-length parameter-name retries, and
finally the bare `raise`.  Each branch issues exactly one further call whose
outcome is returned as-is. -/
def fallback_chain {ρ : Type} (client : Nat → ChatRequest → Except (List Char) ρ)
    (attempt : Nat) (kwargs : ChatRequest) (m : List Char) : Except (List Char) ρ :=
  if kwargs.responseFormatJson &&
      (containsSub unsupportedParamMsg m || containsSub unrecognizedArgMsg m) &&
      containsSub responseFormatMsg m then
    client attempt { kwargs with responseFormatJson := false }
  else if containsSub unsupportedParamMsg m && containsSub maxCompletionTokensMsg m then
    client attempt { kwargs with usesMaxCompletionTokens := false }
  else if containsSub unsupportedParamMsg m && containsSub maxTokensMsg m then
    client attempt { kwargs with usesMaxCompletionTokens := true }
  else .error m

/-- `_create_chat_completion` (agent_azure_ai.py): first attempt with the
new-style output-length parameter, JSON mode if requested and the temperature
if supplied; on failure, the temperature retry (whose own failure updates the
message and keeps the reduced `kwargs`), then `fallback_chain`. -/
def create_chat_completion {ρ : Type} (client : Nat → ChatRequest → Except (List Char) ρ)
    (messages : List (String × String)) (temperature : Option Int)
    (maxOutputTokens : Nat) (jsonObject : Bool) : Except (List Char) ρ :=
  let req0 : ChatRequest :=
    ⟨messages, temperature, jsonObject, true, maxOutputTokens⟩
  match client 0 req0 with
  | .ok r => .ok r
  | .error m0 =>
    if containsSub unsupportedValueMsg m0 && containsSub temperatureMsg m0 then
      let req1 := { req0 with temperature := none }
      match client 1 req1 with
      | .ok r => .ok r
      | .error m1 => fallback_chain client 2 req1 m1
    else fallback_chain client 1 req0 m0

/-! ### Response processing (`generate_program`, `generate_single_week`) -/

/-- The failure kinds raised by the generation operations (`ValueError`s in
the source), carrying the data the messages interpolate. -/
inductive GenError where
  | emptyResponse (finishReason : Option String)
  | truncated (contentLen : Nat) (durationWeeks : Nat)
  | malformedJson (preview : List Char)
deriving DecidableEq, Repr

/-- Post-response processing of `generate_program` (direct mode), from the
extraction of the response text to the normalized program mapping.
`json.loads` is abstracted as `parse` (`none` models `JSONDecodeError`);
the final Pydantic validation is outside this model.  Mirrors the order of
the source's checks: empty content, then `finish_reason == "length"`, then
parsing, then `assign_weekdays_to_workouts`. -/
def process_program_response {α β γ : Type}
    (parse : List Char → Option (ProgramData α β γ)) (durationWeeks : Nat)
    (raw : Option (List Char)) (finishReason : Option String) :
    Except GenError (ProgramData α β γ) :=
  let content := extract_json_object_textD (raw.getD [])
  if (pyStrip content).isEmpty then .error (.emptyResponse finishReason)
  else if finishReason == some "length" then
    .error (.truncated content.length durationWeeks)
  else
    match parse content with
    | none => .error (.malformedJson (content.take 800))
    | some p => .ok (assign_weekdays_to_workouts p)

/-- Post-response processing of `generate_single_week`: extraction, parsing,
then normalization through `assign_weekdays_to_workouts({"weeks": [wd]})`
followed by `["weeks"][0]`.  The response's completion-status signal
(`finishReason`) is part of the provider response but is never read by this
operation in the source; it is a parameter here so that that fact is
expressible. -/
def process_single_week_response {α β : Type}
    (parse : List Char → Option (WeekData α β)) (raw : Option (List Char))
    (finishReason : Option String) : Except GenError (WeekData α β) :=
  let content := extract_json_object_textD (raw.getD [])
  match parse content with
  | none => .error (.malformedJson (content.take 800))
  | some wd =>
    .ok (((assign_weekdays_to_workouts (ProgramData.mk [wd] ())).weeks).headD wd)

/-! ### Periodization and progressive assembly (`_generate_program_progressive`)

The phase allocations in the source are `int(total_weeks * 0.6)`,
`int(total_weeks * 0.25)` and `max(1, int(total_weeks * 0.1))` over IEEE-754
doubles; for every `total_weeks ≤ 59` (well beyond the validated bound
`duration_weeks ≤ 52`) the floating-point products floor to the same values
as the exact rational floors used here. -/

/-- `base_weeks = int(total_weeks * 0.6)`. -/
def base_weeks (n : Nat) : Nat := 6 * n / 10

/-- `build_weeks = int(total_weeks * 0.25)`. -/
def build_weeks (n : Nat) : Nat := 25 * n / 100

/-- `peak_weeks = max(1, int(total_weeks * 0.1))`. -/
def peak_weeks (n : Nat) : Nat := max 1 (n / 10)

/-- `taper_weeks = total_weeks - base_weeks - build_weeks - peak_weeks`,
an `Int` since the remainder could in principle be negative. -/
def taper_weeks (n : Nat) : Int :=
  (n : Int) - base_weeks n - build_weeks n - peak_weeks n

/-- The phase list iterated by `_generate_program_progressive`; a phase with
a non-positive week count contributes `range(k) = []` iterations, which
`Int.toNat` captures. -/
def progressive_phase_plan (n : Nat) : List (String × Nat) :=
  [("Base", base_weeks n), ("Build", build_weeks n), ("Peak", peak_weeks n),
   ("Taper", (taper_weeks n).toNat)]

/-- The `(phase, week_number)` arguments of the successive
`generate_single_week` calls: `week_num` starts at 1 and increments once per
generated week across phase boundaries. -/
def weeksOfPhases : List (String × Nat) → Nat → List (String × Nat)
  | [], _ => []
  | (name, k) :: rest, start =>
    ((List.range k).map (fun i => (name, start + i))) ++ weeksOfPhases rest (start + k)

/-- All single-week generation calls issued for an `n`-week progressive
program, in order. -/
def progressive_week_calls (n : Nat) : List (String × Nat) :=
  weeksOfPhases (progressive_phase_plan n) 1

/-- The week loop of `_generate_program_progressive`: one
`generate_single_week` call per scheduled week, appending results; the first
failure aborts the whole assembly. -/
def gen_weeks {ω : Type} (weekGen : String → Nat → Except GenError ω) :
    List (String × Nat) → Except GenError (List ω)
  | [] => .ok []
  | c :: rest =>
    match weekGen c.1 c.2 with
    | .error e => .error e
    | .ok w =>
      match gen_weeks weekGen rest with
      | .error e => .error e
      | .ok ws => .ok (w :: ws)

/-- `_generate_program_progressive`, modelled up to the list of assembled
weeks (the surrounding `TrainingProgram` construction copies request fields
and a notes string). -/
def generate_program_progressive {ω : Type}
    (weekGen : String → Nat → Except GenError ω) (n : Nat) :
    Except GenError (List ω) :=
  gen_weeks weekGen (progressive_week_calls n)

/-! ### Lemmas about the string primitives -/

lemma isPrefixOf_iff_exists (p l : List Char) :
    p.isPrefixOf l = true ↔ ∃ t, p ++ t = l := by
  induction p generalizing l with
  | nil => simp [List.isPrefixOf]
  | cons a as ih =>
    cases l with
    | nil => simp [List.isPrefixOf]
    | cons b bs =>
      simp only [List.isPrefixOf, Bool.and_eq_true, beq_iff_eq, ih,
        List.cons_append, List.cons.injEq]
      exact ⟨fun ⟨h, t, ht⟩ => ⟨t, h, ht⟩, fun ⟨t, h, ht⟩ => ⟨h, t, ht⟩⟩

lemma findSub_isSome_iff (p s : List Char) :
    (findSub p s).isSome = true ↔ ∃ i, p.isPrefixOf (s.drop i) = true := by
  induction s with
  | nil => cases p <;> simp [findSub, List.isPrefixOf]
  | cons x xs ih =>
    by_cases h : p.isPrefixOf (x :: xs) = true
    · simp only [findSub, if_pos h, Option.isSome_some, true_iff]
      exact ⟨0, by simpa using h⟩
    · simp only [findSub, if_neg h, Option.isSome_map']
      rw [ih]
      constructor
      · rintro ⟨i, hi⟩
        exact ⟨i + 1, by simpa using hi⟩
      · rintro ⟨i, hi⟩
        cases i with
        | zero => exact absurd (by simpa using hi) h
        | succ i => exact ⟨i, by simpa using hi⟩

lemma containsSub_mono_pat {p q s : List Char} (hpq : ∃ u, p ++ u = q)
    (h : containsSub q s = true) : containsSub p s = true := by
  rw [containsSub, findSub_isSome_iff] at h ⊢
  obtain ⟨i, hi⟩ := h
  obtain ⟨u, rfl⟩ := hpq
  rw [isPrefixOf_iff_exists] at hi
  obtain ⟨t, ht⟩ := hi
  exact ⟨i, by rw [isPrefixOf_iff_exists]; exact ⟨u ++ t, by rw [← List.append_assoc]; exact ht⟩⟩

lemma drop_append_right (u w : List Char) (i : Nat) :
    (u ++ w).drop (u.length + i) = w.drop i := by
  induction u with
  | nil => simp
  | cons a u ih => simpa [Nat.succ_add] using ih

lemma containsSub_mono_str {p s t : List Char} (hst : ∃ u v, u ++ s ++ v = t)
    (h : containsSub p s = true) : containsSub p t = true := by
  rw [containsSub, findSub_isSome_iff] at h ⊢
  obtain ⟨i, hi⟩ := h
  obtain ⟨u, v, rfl⟩ := hst
  refine ⟨u.length + i, ?_⟩
  rw [List.append_assoc, drop_append_right]
  rw [isPrefixOf_iff_exists] at hi ⊢
  obtain ⟨w, hw⟩ := hi
  refine ⟨w ++ (v.drop (i - s.length)), ?_⟩
  rw [List.drop_append_eq_append_drop, ← List.append_assoc, hw]

lemma mem_of_containsSub_single {a : Char} {s : List Char}
    (h : containsSub [a] s = true) : a ∈ s := by
  rw [containsSub, findSub_isSome_iff] at h
  obtain ⟨i, hi⟩ := h
  rw [isPrefixOf_iff_exists] at hi
  obtain ⟨t, ht⟩ := hi
  have ha : a ∈ s.drop i := by rw [← ht]; simp
  exact List.mem_of_mem_drop ha

lemma pyStrip_decomposition (s : List Char) : ∃ u v, u ++ pyStrip s ++ v = s := by
  refine ⟨s.takeWhile isPySpace,
    ((s.dropWhile isPySpace).reverse.takeWhile isPySpace).reverse, ?_⟩
  have h1 : pyStrip s ++ ((s.dropWhile isPySpace).reverse.takeWhile isPySpace).reverse
      = s.dropWhile isPySpace := by
    rw [pyStrip, ← List.reverse_append, List.takeWhile_append_dropWhile,
      List.reverse_reverse]
  rw [List.append_assoc, h1, List.takeWhile_append_dropWhile]

lemma mem_of_mem_pyStrip {a : Char} {s : List Char} (h : a ∈ pyStrip s) : a ∈ s := by
  obtain ⟨u, v, hs⟩ := pyStrip_decomposition s
  rw [← hs]
  simp [h]

lemma braceSlice_of_no_lbrace {c : List Char}
    (h : findSub [lbrace] c = none) : braceSlice c = c := by
  rw [braceSlice, h]

/-! ### C10: extractor totality and behaviour -/

/-- C10 counterexample: the claim says every input containing neither `{` nor
`}` is returned trimmed and unchanged, but an input containing a fenced code
block and no braces is reduced to the fence's contents. -/
theorem extractor_degenerate_cex :
    lbrace ∉ ("a ```b``` c").toList ∧ rbrace ∉ ("a ```b``` c").toList ∧
    extract_json_object_text (("a ```b``` c").toList) = some (("b").toList) ∧
    pyStrip (("a ```b``` c").toList) ≠ ("b").toList := by
  decide

/-- C10 (amended): the extractor is total — for every input it returns a
string without any exception path being reachable; an input containing
neither brace and no ``` fence is returned trimmed and unchanged; and the
fenced example extracts to exactly the JSON object text. -/
theorem extractor_totality :
    (∀ s : List Char, (extract_json_object_text s).isSome = true) ∧
    (∀ s : List Char, lbrace ∉ s → rbrace ∉ s → containsSub fenceL s = false →
      extract_json_object_text s = some (pyStrip s)) ∧
    extract_json_object_text
        (("Here you go:\n```json\n\x7b\"a\":1\x7d\n```\nEnjoy!").toList) =
      some (("\x7b\"a\":1\x7d").toList) := by
  refine ⟨?_, ?_, by decide⟩
  · intro s
    by_cases h1 : containsSub jsonFenceL (pyStrip s) = true
    · have h1' : (findSub jsonFenceL (pyStrip s)).isSome = true := h1
      simp [extract_json_object_text, splitIdx1?, afterFirst?, h1, h1']
    · by_cases h2 : containsSub fenceL (pyStrip s) = true
      · have h2' : (findSub fenceL (pyStrip s)).isSome = true := h2
        simp [extract_json_object_text, splitIdx1?, afterFirst?, h1, h2, h2']
      · simp [extract_json_object_text, h1, h2]
  · intro s hl hr hf
    have hfs : containsSub fenceL (pyStrip s) = false := by
      by_cases h : containsSub fenceL (pyStrip s) = true
      · exact absurd (containsSub_mono_str (pyStrip_decomposition s) h) (by simp [hf])
      · simpa using h
    have hjs : containsSub jsonFenceL (pyStrip s) = false := by
      by_cases h : containsSub jsonFenceL (pyStrip s) = true
      · exact absurd
          (containsSub_mono_pat (p := fenceL) (q := jsonFenceL)
            ⟨("json").toList, by decide⟩ h)
          (by simp [hfs])
      · simpa using h
    have hbrace : findSub [lbrace] (pyStrip s) = none := by
      cases h : findSub [lbrace] (pyStrip s) with
      | none => rfl
      | some i =>
        exact absurd
          (mem_of_mem_pyStrip (mem_of_containsSub_single (s := pyStrip s)
            (by rw [containsSub, h]; rfl)))
          hl
    simp [extract_json_object_text, hjs, hfs, braceSlice_of_no_lbrace hbrace]

/-- Closed instance for the degenerate-input clause of the previous theorem. -/
theorem extractor_totality_witness :
    extract_json_object_text (("hello world").toList) =
      some (("hello world").toList) :=
  (extractor_totality.2.1 (("hello world").toList) (by decide) (by decide)
    (by decide)).trans (by decide)

/-! ### Lemmas about the day normalizer -/

lemma eraseDay_stepActive {α : Type} (base aIdx : Nat) (w : Workout α) :
    eraseDay (stepActive base aIdx w) = eraseDay w := by
  rw [stepActive]
  split <;> rfl

lemma eraseDay_stepRest {α : Type} (base nA rIdx : Nat) (w : Workout α) :
    eraseDay (stepRest base nA rIdx w) = eraseDay w := by
  rw [stepRest]
  split
  · rfl
  · split <;> rfl

lemma assignDaysGo_map_eraseDay {α : Type} (base nA : Nat) :
    ∀ (ws : List (Workout α)) (aIdx rIdx : Nat),
    (assignDaysGo base nA aIdx rIdx ws).map eraseDay = ws.map eraseDay := by
  intro ws
  induction ws with
  | nil => intro aIdx rIdx; rfl
  | cons w ws ih =>
    intro aIdx rIdx
    by_cases hw : w.is_rest_day
    · simp [assignDaysGo, hw, eraseDay_stepRest, ih]
    · simp [assignDaysGo, hw, eraseDay_stepActive, ih]

lemma assign_week_noop {α β : Type} (wk : WeekData α β)
    (h : ∀ w ∈ wk.workouts, w.day.isSome) : assign_week wk = wk := by
  have hany : wk.workouts.any (fun w => w.day.isNone) = false := by
    rw [List.any_eq_false]
    intro w hw
    simp [Option.isNone_iff_eq_none]
    exact Option.isSome_iff_ne_none.mp (h w hw)
  rw [assign_week]
  split
  · rfl
  · rw [if_neg (by simp [hany])]

lemma assignDaysGo_getElem? {α : Type} (base nA : Nat) :
    ∀ (ws : List (Workout α)) (aIdx rIdx i : Nat),
    (assignDaysGo base nA aIdx rIdx ws)[i]? = (ws[i]?).map (fun w =>
      if w.is_rest_day then
        stepRest base nA (rIdx + (ws.take i).countP (fun w' => w'.is_rest_day)) w
      else
        stepActive base (aIdx + (ws.take i).countP (fun w' => !w'.is_rest_day)) w) := by
  intro ws
  induction ws with
  | nil => intro aIdx rIdx i; simp [assignDaysGo]
  | cons w ws ih =>
    intro aIdx rIdx i
    by_cases hw : w.is_rest_day
    · cases i with
      | zero => simp [assignDaysGo, hw]
      | succ i =>
        rw [assignDaysGo, if_pos hw]
        rw [List.getElem?_cons_succ, List.getElem?_cons_succ, ih]
        cases hg : ws[i]? with
        | none => rfl
        | some w' =>
          simp only [Option.map_some', List.take_succ_cons, List.countP_cons]
          by_cases hw' : w'.is_rest_day
          · rw [if_pos hw', if_pos hw']
            have harg : rIdx + 1 + (ws.take i).countP (fun w' => w'.is_rest_day) =
                rIdx + ((ws.take i).countP (fun w' => w'.is_rest_day) +
                  if w.is_rest_day then 1 else 0) := by
              rw [if_pos hw]; omega
            rw [harg]
          · rw [if_neg hw', if_neg hw']
            have harg : aIdx + (ws.take i).countP (fun w' => !w'.is_rest_day) =
                aIdx + ((ws.take i).countP (fun w' => !w'.is_rest_day) +
                  if !w.is_rest_day then 1 else 0) := by
              rw [if_neg (by simp [hw])]; omega
            rw [harg]
    · cases i with
      | zero => simp [assignDaysGo, hw]
      | succ i =>
        rw [assignDaysGo, if_neg hw]
        rw [List.getElem?_cons_succ, List.getElem?_cons_succ, ih]
        cases hg : ws[i]? with
        | none => rfl
        | some w' =>
          simp only [Option.map_some', List.take_succ_cons, List.countP_cons]
          by_cases hw' : w'.is_rest_day
          · rw [if_pos hw', if_pos hw']
            have harg : rIdx + (ws.take i).countP (fun w' => w'.is_rest_day) =
                rIdx + ((ws.take i).countP (fun w' => w'.is_rest_day) +
                  if w.is_rest_day then 1 else 0) := by
              rw [if_neg (by simp [hw])]; omega
            rw [harg]
          · rw [if_neg hw', if_neg hw']
            have harg : aIdx + 1 + (ws.take i).countP (fun w' => !w'.is_rest_day) =
                aIdx + ((ws.take i).countP (fun w' => !w'.is_rest_day) +
                  if !w.is_rest_day then 1 else 0) := by
              rw [if_pos (by simp [hw])]; omega
            rw [harg]

lemma countP_split_at {γ : Type} (p : γ → Bool) {ws : List γ} {i : Nat} {w : γ}
    (hg : ws[i]? = some w) :
    ws.countP p =
      (ws.take i).countP p + (if p w then 1 else 0) + (ws.drop (i + 1)).countP p := by
  obtain ⟨hlt, hv⟩ := List.getElem?_eq_some_iff.mp hg
  conv_lhs => rw [← List.take_append_drop i ws]
  rw [List.countP_append, List.drop_eq_getElem_cons hlt, List.countP_cons, hv]
  omega

/-! ### C1: day-normalizer partial preservation -/

/-- A one-week program whose first workout already carries a day while the
second does not. -/
def c1bad : ProgramData Nat Nat Nat :=
  ⟨[⟨[⟨some "Sunday", false, 0⟩, ⟨none, false, 1⟩], 0⟩], 0⟩

/-- C1 counterexample: the claim says that if at least one workout of a week
already carries a day, no workout of that week is modified and existing days
are kept; but with one workout carrying `"Sunday"` and one workout missing a
day, the normalizer rewrites both, overwriting `"Sunday"` with `"Monday"`. -/
theorem day_normalizer_partial_preservation_cex :
    c1bad.weeks = [⟨[⟨some "Sunday", false, 0⟩, ⟨none, false, 1⟩], 0⟩] ∧
    assign_weekdays_to_workouts c1bad =
      ⟨[⟨[⟨some "Monday", false, 0⟩, ⟨some "Tuesday", false, 1⟩], 0⟩], 0⟩ ∧
    assign_weekdays_to_workouts c1bad ≠ c1bad := by
  decide

/-- C1 (amended): the normalizer leaves a week untouched only when *every*
workout of the week already has a day field (then the whole structure is
returned unchanged); as soon as one workout lacks a day, all workouts of
that week are reassigned, overwriting days that were present. -/
theorem day_normalizer_partial_preservation {α β γ : Type}
    (p : ProgramData α β γ)
    (h : ∀ wk ∈ p.weeks, ∀ w ∈ wk.workouts, w.day.isSome) :
    assign_weekdays_to_workouts p = p := by
  have hmap : p.weeks.map assign_week = p.weeks := by
    calc p.weeks.map assign_week = p.weeks.map id :=
          List.map_congr_left (fun wk hwk => assign_week_noop wk (h wk hwk))
    _ = p.weeks := List.map_id p.weeks
  rw [assign_weekdays_to_workouts, hmap]

/-- Closed instance of C1's amended theorem. -/
theorem day_normalizer_partial_preservation_witness :
    assign_weekdays_to_workouts
        (ProgramData.mk (α := Nat) (β := Nat) (γ := Nat)
          [⟨[⟨some "Friday", true, 0⟩, ⟨some "Sunday", false, 1⟩], 0⟩] 0) =
      ⟨[⟨[⟨some "Friday", true, 0⟩, ⟨some "Sunday", false, 1⟩], 0⟩], 0⟩ :=
  day_normalizer_partial_preservation
    ⟨[⟨[⟨some "Friday", true, 0⟩, ⟨some "Sunday", false, 1⟩], 0⟩], 0⟩ (by decide)

/-! ### C2: day-normalizer assignment policy -/

lemma countP_active_add_countP_rest {α : Type} (ws : List (Workout α)) :
    ws.countP (fun w => !w.is_rest_day) + ws.countP (fun w => w.is_rest_day) =
      ws.length := by
  induction ws with
  | nil => rfl
  | cons w ws ih => by_cases hw : w.is_rest_day <;> simp [List.countP_cons, hw] <;> omega

/-- C2: the normalizer never reorders a week's workouts and only annotates
their day fields; on a week of 5 active workouts plus 1 rest workout, none of
which carries a day, the rest workout receives Monday and the active workouts
receive Tuesday through Saturday in their original order (the `i`-th workout's
day is determined by how many active workouts precede it); and re-running the
normalizer on the annotated result is a no-op. -/
theorem day_normalizer_assignment_policy {α β : Type} :
    (∀ wk : WeekData α β,
      (assign_week wk).workouts.map eraseDay = wk.workouts.map eraseDay) ∧
    (∀ wk : WeekData α β,
      wk.workouts.length = 6 →
      wk.workouts.countP (fun w => w.is_rest_day) = 1 →
      (∀ w ∈ wk.workouts, w.day = none) →
      (∀ i : Nat, (assign_week wk).workouts[i]? = (wk.workouts[i]?).map (fun w =>
          if w.is_rest_day then { w with day := some "Monday" }
          else { w with day := some (weekdayStr
            (1 + (wk.workouts.take i).countP (fun w' => !w'.is_rest_day))) }) ) ∧
      assign_week (assign_week wk) = assign_week wk) := by
  constructor
  · intro wk
    simp only [assign_week]
    split_ifs with h1 h2 h3 <;>
      first
        | rfl
        | exact assignDaysGo_map_eraseDay _ _ wk.workouts 0 0
  · intro wk h6 h1 hn
    have hne : wk.workouts.isEmpty = false := by
      cases hws : wk.workouts with
      | nil => rw [hws] at h6; simp at h6
      | cons a l => simp [hws]
    have hrest : wk.workouts.any (fun w => w.is_rest_day) = true := by
      rw [List.any_eq_true]
      have hpos : 0 < wk.workouts.countP (fun w => w.is_rest_day) := by omega
      obtain ⟨a, ha, hpa⟩ := List.countP_pos_iff.mp hpos
      exact ⟨a, ha, hpa⟩
    have hmiss : wk.workouts.any (fun w => w.day.isNone) = true := by
      rw [List.any_eq_true]
      have hlen : 0 < wk.workouts.length := by omega
      obtain ⟨a, ha⟩ := List.exists_mem_of_length_pos hlen
      exact ⟨a, ha, by simp [hn a ha]⟩
    have h5 : wk.workouts.countP (fun w => !w.is_rest_day) = 5 := by
      have := countP_active_add_countP_rest wk.workouts
      omega
    have hact : (wk.workouts.filter (fun w => !w.is_rest_day)).length = 5 := by
      rw [← List.countP_eq_length_filter]
      exact h5
    have hassign : assign_week wk =
        { wk with workouts := assignDaysGo 1 5 0 0 wk.workouts } := by
      simp [assign_week, hne, hmiss, hrest, hact]
    have hpos : ∀ i : Nat, (assign_week wk).workouts[i]? =
        (wk.workouts[i]?).map (fun w =>
          if w.is_rest_day then { w with day := some "Monday" }
          else { w with day := some (weekdayStr
            (1 + (wk.workouts.take i).countP (fun w' => !w'.is_rest_day))) }) := by
      intro i
      rw [hassign]
      show (assignDaysGo 1 5 0 0 wk.workouts)[i]? = _
      rw [assignDaysGo_getElem?]
      cases hg : wk.workouts[i]? with
      | none => rfl
      | some w =>
        simp only [Option.map_some']
        by_cases hw : w.is_rest_day
        · rw [if_pos hw, if_pos hw]
          have hz : (wk.workouts.take i).countP (fun w' => w'.is_rest_day) = 0 := by
            have hs := countP_split_at (fun w' => w'.is_rest_day) hg
            rw [if_pos hw] at hs
            omega
          rw [hz]
          rw [stepRest, if_pos rfl]
          rfl
        · rw [if_neg hw, if_neg hw]
          have hk : (wk.workouts.take i).countP (fun w' => !w'.is_rest_day) ≤ 4 := by
            have hs := countP_split_at (fun w' => !w'.is_rest_day) hg
            rw [if_pos (by simp [hw])] at hs
            omega
          rw [Nat.zero_add, stepActive, if_pos (by omega)]
    refine ⟨hpos, ?_⟩
    apply assign_week_noop
    intro w' hw'
    obtain ⟨j, hj⟩ := List.mem_iff_getElem?.mp hw'
    rw [hpos j] at hj
    cases hg : wk.workouts[j]? with
    | none => rw [hg] at hj; simp at hj
    | some w =>
      rw [hg] at hj
      simp only [Option.map_some', Option.some.injEq] at hj
      rw [← hj]
      by_cases hw : w.is_rest_day
      · simp [hw]
      · simp [hw]

/-- Closed instance of C2's theorem on a concrete 5-active/1-rest week. -/
def c2wk : WeekData Nat Nat :=
  ⟨[⟨none, true, 0⟩, ⟨none, false, 1⟩, ⟨none, false, 2⟩, ⟨none, false, 3⟩,
    ⟨none, false, 4⟩, ⟨none, false, 5⟩], 0⟩

theorem day_normalizer_assignment_policy_witness :
    (assign_week c2wk).workouts[0]? = some ⟨some "Monday", true, 0⟩ ∧
    (assign_week c2wk).workouts[1]? = some ⟨some "Tuesday", false, 1⟩ ∧
    (assign_week c2wk).workouts[5]? = some ⟨some "Saturday", false, 5⟩ ∧
    assign_week (assign_week c2wk) = assign_week c2wk ∧
    (assign_week c2wk).workouts.map eraseDay = c2wk.workouts.map eraseDay := by
  have h := day_normalizer_assignment_policy (α := Nat) (β := Nat)
  have h2 := h.2 c2wk (by decide) (by decide) (by decide)
  exact ⟨(h2.1 0).trans (by decide), (h2.1 1).trans (by decide),
    (h2.1 5).trans (by decide), h2.2, h.1 c2wk⟩

/-! ### C3: periodization arithmetic -/

lemma weeksOfPhases_map_snd (phases : List (String × Nat)) :
    ∀ s : Nat, (weeksOfPhases phases s).map Prod.snd =
      List.range' s ((phases.map Prod.snd).sum) := by
  induction phases with
  | nil => intro s; rfl
  | cons ph rest ih =>
    intro s
    obtain ⟨name, k⟩ := ph
    rw [weeksOfPhases, List.map_append, ih]
    have hfst : ((List.range k).map (fun i => (name, s + i))).map Prod.snd =
        List.range' s k := by
      rw [List.map_map, List.range'_eq_map_range]
      rfl
    rw [hfst, List.map_cons, List.sum_cons, List.range'_append_1]
    congr 1
    simp [Nat.add_comm]

/-- C3: the phase allocations computed by `_generate_program_progressive` are
base=7, build=3, peak=1, taper=1 for a 12-week request and base=6, build=2,
peak=1, taper=1 for a 10-week request; and for every duration the week
numbers passed to the single-week generation calls are consecutive integers
starting at 1 with no gaps or repeats. -/
theorem periodization_arithmetic :
    base_weeks 12 = 7 ∧ build_weeks 12 = 3 ∧ peak_weeks 12 = 1 ∧
      taper_weeks 12 = 1 ∧
    base_weeks 10 = 6 ∧ build_weeks 10 = 2 ∧ peak_weeks 10 = 1 ∧
      taper_weeks 10 = 1 ∧
    (progressive_week_calls 12).map Prod.snd = List.range' 1 12 ∧
    (progressive_week_calls 10).map Prod.snd = List.range' 1 10 ∧
    ∀ n : Nat, (progressive_week_calls n).map Prod.snd =
      List.range' 1 ((progressive_week_calls n).length) := by
  refine ⟨by decide, by decide, by decide, by decide, by decide, by decide,
    by decide, by decide, by decide, by decide, ?_⟩
  intro n
  have h := weeksOfPhases_map_snd (progressive_phase_plan n) 1
  have hlen : (weeksOfPhases (progressive_phase_plan n) 1).length =
      ((progressive_phase_plan n).map Prod.snd).sum := by
    have hc := congrArg List.length h
    simpa using hc
  rw [progressive_week_calls, h, hlen]

/-! ### C5: taper-allocation failure handling -/

/-- C5 counterexample: the claim says a non-positive taper allocation makes
the assembly fail with a fatal error, but `_generate_program_progressive` has
no such check — at `total_weeks = 5` the taper allocation is `0` and the
assembly completes normally, silently generating no taper week at all. -/
theorem taper_silent_skip_cex :
    taper_weeks 5 = 0 ∧
    generate_program_progressive (ω := Nat) (fun _ k => Except.ok k) 5 =
      Except.ok [1, 2, 3, 4, 5] ∧
    (progressive_week_calls 5).countP (fun c => c.1 == "Taper") = 0 := by
  refine ⟨by decide, by rfl, by decide⟩

lemma phase_block_countP_eq_zero (s : Nat) (name : String) (k : Nat)
    (hname : name ≠ "Taper") :
    ((List.range k).map (fun i => (name, s + i))).countP
      (fun c => c.1 == "Taper") = 0 := by
  rw [List.countP_eq_zero]
  intro c hc
  obtain ⟨i, _, rfl⟩ := List.mem_map.mp hc
  simp [hname]

/-- C5 (amended): the source contains no taper-validity check; whenever the
taper allocation is non-positive the taper phase is silently skipped (no
single-week call is issued for it and the generated week numbers stop after
the peak phase).  However, for every duration in progressive mode's range
(7–52 weeks, durations above 6 within the validated bound of 52) the taper
allocation is at least 1, so the skipped-phase situation is unreachable
through `generate_program`. -/
theorem taper_arithmetic_guard :
    (∀ n : Nat, 7 ≤ n → n ≤ 52 → 1 ≤ taper_weeks n) ∧
    (∀ n : Nat, taper_weeks n ≤ 0 →
      (progressive_week_calls n).countP (fun c => c.1 == "Taper") = 0 ∧
      (progressive_week_calls n).map Prod.snd =
        List.range' 1 (base_weeks n + build_weeks n + peak_weeks n)) := by
  constructor
  · intro n h7 h52
    rw [taper_weeks, base_weeks, build_weeks, peak_weeks]
    rcases Nat.lt_or_ge n 10 with h10 | h10
    · have h0 : n / 10 = 0 := Nat.div_eq_of_lt h10
      rw [h0, Nat.max_eq_left (Nat.zero_le 1)]
      omega
    · have h1 : 1 ≤ n / 10 := Nat.one_le_div_iff (by omega) |>.mpr h10
      rw [Nat.max_eq_right h1]
      omega
  · intro n hle
    have ht : (taper_weeks n).toNat = 0 := by
      rcases Int.le_iff_lt_or_eq.mp hle with h | h
      · exact Int.toNat_of_nonpos (le_of_lt h)
      · rw [h]; rfl
    constructor
    · simp only [progressive_week_calls, progressive_phase_plan, ht,
        weeksOfPhases, List.range_zero, List.map_nil, List.append_nil,
        List.nil_append, List.countP_append]
      rw [phase_block_countP_eq_zero 1 "Base" (base_weeks n) (by decide),
        phase_block_countP_eq_zero (1 + base_weeks n) "Build" (build_weeks n)
          (by decide),
        phase_block_countP_eq_zero (1 + base_weeks n + build_weeks n) "Peak"
          (peak_weeks n) (by decide)]
    · have h := weeksOfPhases_map_snd (progressive_phase_plan n) 1
      rw [progressive_week_calls, h]
      congr 1
      simp only [progressive_phase_plan, List.map_cons, List.map_nil,
        List.sum_cons, List.sum_nil, ht]
      omega

/-- Closed instance of C5's amended theorem. -/
theorem taper_arithmetic_guard_witness :
    1 ≤ taper_weeks 12 ∧
    (progressive_week_calls 4).countP (fun c => c.1 == "Taper") = 0 :=
  ⟨taper_arithmetic_guard.1 12 (by decide) (by decide),
   (taper_arithmetic_guard.2 4 (by decide)).1⟩

/-! ### C4: truncation handling -/

/-- A week-shaped value and a parser for the counterexample below. -/
def c4_week : WeekData Nat Nat := ⟨[], 0⟩

def c4_parse : List Char → Option (WeekData Nat Nat) :=
  fun c => if c == [lbrace, rbrace] then some c4_week else none

/-- C4 counterexample: the claim says every generation operation fails with a
truncation error when the completion-status signal is `"length"`, but
`generate_single_week` never inspects the signal: with `finish_reason =
"length"` and parseable content it returns the parsed week normally. -/
theorem truncation_single_week_cex :
    process_single_week_response c4_parse (some [lbrace, rbrace])
      (some "length") = Except.ok c4_week := by
  rfl

/-- C4 (amended): only the whole-program operation checks the
completion-status signal: it fails with the truncation error whenever the
signal is `"length"` and the extracted content is non-empty (an empty
extraction takes the empty-response error instead); the single-week
operation performs no truncation check at all — its result does not depend
on the signal. -/
theorem truncation_error_handling :
    (∀ (parse : List Char → Option (ProgramData Nat Nat Nat))
        (durationWeeks : Nat) (raw : Option (List Char)),
      (pyStrip (extract_json_object_textD (raw.getD []))).isEmpty = false →
      process_program_response parse durationWeeks raw (some "length") =
        Except.error (GenError.truncated
          (extract_json_object_textD (raw.getD [])).length durationWeeks)) ∧
    (∀ (parse : List Char → Option (WeekData Nat Nat)) (raw : Option (List Char))
        (fr fr' : Option String),
      process_single_week_response parse raw fr =
        process_single_week_response parse raw fr') := by
  constructor
  · intro parse durationWeeks raw h
    simp [process_program_response, h]
  · intro parse raw fr fr'
    rfl

/-- Closed instance of C4's amended theorem. -/
theorem truncation_error_handling_witness :
    process_program_response
        (fun _ => (none : Option (ProgramData Nat Nat Nat))) 12
        (some [lbrace, rbrace]) (some "length") =
      Except.error (GenError.truncated 2 12) :=
  truncation_error_handling.1 (fun _ => none) 12 (some [lbrace, rbrace])
    (by decide)

/-! ### C6: output-length parameter-name fallback, both directions -/

/-- C6: if the first attempt is rejected with an error naming specifically the
new-style output-length parameter, the request is resubmitted (second network
call) with the legacy parameter name and every other parameter unchanged;
symmetrically, an error naming specifically the legacy parameter causes a
resubmission carrying the new-style name with nothing else altered.  The
result of the whole call is exactly the provider's answer to that
resubmission. -/
theorem token_param_fallback {ρ : Type} :
    ∀ (client : Nat → ChatRequest → Except (List Char) ρ)
      (messages : List (String × String)) (temperature : Option Int)
      (maxOutputTokens : Nat) (jsonObject : Bool) (err : List Char),
    (client 0 ⟨messages, temperature, jsonObject, true, maxOutputTokens⟩ =
        .error err →
      containsSub unsupportedParamMsg err = true →
      containsSub maxCompletionTokensMsg err = true →
      containsSub unsupportedValueMsg err = false →
      containsSub responseFormatMsg err = false →
      create_chat_completion client messages temperature maxOutputTokens
          jsonObject =
        client 1 ⟨messages, temperature, jsonObject, false, maxOutputTokens⟩) ∧
    (client 0 ⟨messages, temperature, jsonObject, true, maxOutputTokens⟩ =
        .error err →
      containsSub unsupportedParamMsg err = true →
      containsSub maxTokensMsg err = true →
      containsSub maxCompletionTokensMsg err = false →
      containsSub unsupportedValueMsg err = false →
      containsSub responseFormatMsg err = false →
      create_chat_completion client messages temperature maxOutputTokens
          jsonObject =
        client 1 ⟨messages, temperature, jsonObject, true, maxOutputTokens⟩) := by
  intro client messages temperature maxOutputTokens jsonObject err
  constructor
  · intro h0 h1 h2 h3 h4
    simp [create_chat_completion, fallback_chain, h0, h1, h2, h3, h4]
  · intro h0 h1 h2 h3 h4 h5
    simp [create_chat_completion, fallback_chain, h0, h1, h2, h3, h4, h5]

/-- A provider that rejects the new-style output-length parameter and echoes
any request it accepts. -/
def c6_err_new : List Char :=
  ("Unsupported parameter: 'max_completion_tokens' is not supported with this model").toList

def c6_client_new : Nat → ChatRequest → Except (List Char) ChatRequest :=
  fun _ r => if r.usesMaxCompletionTokens then .error c6_err_new else .ok r

/-- A provider whose first answer is an error naming the legacy output-length
parameter and that accepts the resubmission. -/
def c6_err_legacy : List Char :=
  ("Unsupported parameter: 'max_tokens' was rejected by this endpoint").toList

def c6_client_legacy : Nat → ChatRequest → Except (List Char) ChatRequest :=
  fun i r => if i == 0 then .error c6_err_legacy else .ok r

/-- Closed instance of C6: both simulated providers succeed on the second
attempt, the final request carrying the other parameter name and no other
parameter altered. -/
theorem token_param_fallback_witness :
    create_chat_completion c6_client_new [] none 16000 true =
      Except.ok ⟨[], none, true, false, 16000⟩ ∧
    create_chat_completion c6_client_legacy [] none 3000 true =
      Except.ok ⟨[], none, true, true, 3000⟩ := by
  constructor
  · exact ((token_param_fallback c6_client_new [] none 16000 true c6_err_new).1
      (by rfl) (by decide) (by decide) (by decide) (by decide)).trans (by rfl)
  · exact ((token_param_fallback c6_client_legacy [] none 3000 true
      c6_err_legacy).2 (by rfl) (by decide) (by decide) (by decide) (by decide)
      (by decide)).trans (by rfl)

/-! ### C7: JSON-mode fallback -/

/-- C7: if the first attempt is rejected with an error naming the JSON-mode
parameter (and JSON mode was requested), the request is resubmitted without
JSON mode, with the output-length parameter and the temperature unchanged;
the whole call returns exactly the provider's answer to that resubmission,
so it succeeds whenever JSON mode was the provider's only objection. -/
theorem json_mode_fallback {ρ : Type} :
    ∀ (client : Nat → ChatRequest → Except (List Char) ρ)
      (messages : List (String × String)) (temperature : Option Int)
      (maxOutputTokens : Nat) (err : List Char),
    client 0 ⟨messages, temperature, true, true, maxOutputTokens⟩ = .error err →
    (containsSub unsupportedParamMsg err ||
      containsSub unrecognizedArgMsg err) = true →
    containsSub responseFormatMsg err = true →
    containsSub unsupportedValueMsg err = false →
    create_chat_completion client messages temperature maxOutputTokens true =
      client 1 ⟨messages, temperature, false, true, maxOutputTokens⟩ := by
  intro client messages temperature maxOutputTokens err h0 h1 h2 h3
  simp [create_chat_completion, fallback_chain, h0, h1, h2, h3]

/-- A provider that rejects any request asking for JSON mode and echoes any
request it accepts. -/
def c7_err : List Char :=
  ("Unrecognized request argument supplied: response_format").toList

def c7_client : Nat → ChatRequest → Except (List Char) ChatRequest :=
  fun _ r => if r.responseFormatJson then .error c7_err else .ok r

/-- Closed instance of C7: the second attempt succeeds with JSON mode removed
while the temperature and the output-length budget are preserved. -/
theorem json_mode_fallback_witness :
    create_chat_completion c7_client [] (some 1) 500 true =
      Except.ok ⟨[], some 1, false, true, 500⟩ :=
  (json_mode_fallback c7_client [] (some 1) 500 c7_err (by rfl) (by decide)
    (by decide) (by decide)).trans (by rfl)

/-! ### C8: sport coercion -/

/-- C8: `Workout.lowercase_sport` is a total four-case mapping on the
lowered-and-stripped input: a value containing both the `bike` and the `run`
token maps to `bike`; the value `rest` maps to `swim`; each of `swim`,
`bike`, `run` maps to itself; every other value maps to `run`.  Its output is
always one of the three closed-vocabulary sports, which is what makes running
it before schema validation sufficient for the `sport` field to validate. -/
theorem sport_coercion :
    (lowercase_sport (("swim").toList) = ("swim").toList ∧
     lowercase_sport (("bike").toList) = ("bike").toList ∧
     lowercase_sport (("run").toList) = ("run").toList) ∧
    ∀ v : List Char,
      (containsSub (("bike").toList) (pyStrip (pyLower v)) = true →
       containsSub (("run").toList) (pyStrip (pyLower v)) = true →
       lowercase_sport v = ("bike").toList) ∧
      (pyStrip (pyLower v) = ("rest").toList →
       lowercase_sport v = ("swim").toList) ∧
      (pyStrip (pyLower v) ≠ ("rest").toList →
       (containsSub (("bike").toList) (pyStrip (pyLower v)) &&
        containsSub (("run").toList) (pyStrip (pyLower v))) = false →
       pyStrip (pyLower v) ∉
         [("swim").toList, ("bike").toList, ("run").toList] →
       lowercase_sport v = ("run").toList) ∧
      lowercase_sport v ∈
        [("swim").toList, ("bike").toList, ("run").toList] := by
  refine ⟨⟨by decide, by decide, by decide⟩, ?_⟩
  intro v
  refine ⟨?_, ?_, ?_, ?_⟩
  · intro h1 h2
    have hne : pyStrip (pyLower v) ≠ ("rest").toList := by
      intro heq
      rw [heq] at h1
      exact absurd h1 (by decide)
    have hc1 : ¬((pyStrip (pyLower v) == ("rest").toList) = true) := by
      simpa using hne
    have hc2 : (containsSub (("bike").toList) (pyStrip (pyLower v)) &&
        containsSub (("run").toList) (pyStrip (pyLower v))) = true := by
      rw [h1, h2]
      rfl
    simp only [lowercase_sport]
    rw [if_neg hc1, if_pos hc2]
  · intro heq
    have hc1 : (pyStrip (pyLower v) == ("rest").toList) = true := by
      simpa using heq
    simp only [lowercase_sport]
    rw [if_pos hc1]
  · intro hne hbr hmem
    have hc1 : ¬((pyStrip (pyLower v) == ("rest").toList) = true) := by
      simpa using hne
    have hc2 : ¬((containsSub (("bike").toList) (pyStrip (pyLower v)) &&
        containsSub (("run").toList) (pyStrip (pyLower v))) = true) := by
      intro hab
      rw [hab] at hbr
      simp at hbr
    have hc3 : ¬((pyStrip (pyLower v) = ("swim").toList ∨
        pyStrip (pyLower v) = ("bike").toList) ∨
        pyStrip (pyLower v) = ("run").toList) := by
      intro hor
      apply hmem
      rcases hor with (h | h) | h <;> simp [h]
    simp only [lowercase_sport]
    rw [if_neg hc1, if_neg hc2, if_neg (by simpa using hc3)]
  · simp only [lowercase_sport]
    split_ifs with g1 g2 g3
    · decide
    · decide
    · rcases (by simpa using g3 :
        (pyStrip (pyLower v) = ("swim").toList ∨
         pyStrip (pyLower v) = ("bike").toList) ∨
        pyStrip (pyLower v) = ("run").toList) with (h | h) | h <;>
        rw [h] <;> decide
    · decide

/-- Closed instances of C8's four cases. -/
theorem sport_coercion_witness :
    lowercase_sport (("Brick: Bike to Run").toList) = ("bike").toList ∧
    lowercase_sport ((" REST ").toList) = ("swim").toList ∧
    lowercase_sport (("yoga").toList) = ("run").toList :=
  ⟨(sport_coercion.2 (("Brick: Bike to Run").toList)).1 (by decide) (by decide),
   (sport_coercion.2 ((" REST ").toList)).2.1 (by decide),
   (sport_coercion.2 (("yoga").toList)).2.2.1 (by decide) (by decide)
     (by decide)⟩

/-! ### C9: goal/fitness normalization -/

/-- C9: `TrainingProgram.lowercase_enums` is a no-op on every canonical goal
and fitness value, and normalizes each of `70.3`, `half ironman` and
`half-ironman` to `half_ironman`. -/
theorem enum_normalization :
    ((canonical_goal_values ++ canonical_fitness_values).all
      (fun v => lowercase_enums v == v)) = true ∧
    lowercase_enums (("70.3").toList) = ("half_ironman").toList ∧
    lowercase_enums (("half ironman").toList) = ("half_ironman").toList ∧
    lowercase_enums (("half-ironman").toList) = ("half_ironman").toList := by
  refine ⟨by decide, by decide, by decide, by decide⟩

end Endurely
